import Mathlib

/-!
# Verification of the `http` source (src/sources/http.rs)

Shallow embedding of the simple HTTP source: the encoding-aware body
decoder (`decode_body`, `body_to_lines`, `json_parse_object`,
`json_parse_array_of_object`), the enrichment steps of `build_event`
(`add_headers`, `add_query_parameters`, `add_path`, source-type
injection), and the configuration schema (`SimpleHttpConfig`).

Modelling conventions:
* byte payloads are modelled as `String` / `List Char`;
* `chrono::Utc::now()` is modelled by an explicit `now : Nat` parameter
  threaded into the decoder (all records of one decode share it);
* the external JSON parser (`serde_json::from_slice`) and the event/log
  data types (`Event`, `LogEvent`, `Value`, `log_schema`), which live
  outside the shown sources, are modelled from the spec and from the
  repository's own tests, as documented on each definition.
-/

namespace HttpSource

/-- JSON values as produced by the external JSON parser
(`serde_json::Value`). Objects keep their bindings in textual order; on
duplicate keys the later binding wins observationally because the decoder
inserts bindings left to right. Numbers are modelled as integers (the
claims under verification only pass numbers through uninspected). -/
inductive JsonValue where
  | null : JsonValue
  | bool (b : Bool) : JsonValue
  | num (n : Int) : JsonValue
  | str (s : String) : JsonValue
  | arr (elems : List JsonValue) : JsonValue
  | obj (fields : List (String × JsonValue)) : JsonValue

/-- Modelled from the spec: record field values are "string, number,
boolean, null, nested mapping, or byte sequence", plus the injected
timestamp. JSON strings and injected path/header values are byte
sequences (`bytes`), matching the event model's conversion. -/
inductive Value where
  | null : Value
  | boolean (b : Bool) : Value
  | int (n : Int) : Value
  | bytes (s : String) : Value
  | timestamp (t : Nat) : Value
  | arr (vs : List Value) : Value
  | map (fields : List (String × Value)) : Value

mutual

/-- Conversion of a parsed JSON value into an event `Value`
(the event model's `impl From<serde_json::Value> for Value`): strings
become byte sequences, arrays and objects convert element-wise. -/
def toValue : JsonValue → Value
  | .null => .null
  | .bool b => .boolean b
  | .num n => .int n
  | .str s => .bytes s
  | .arr es => .arr (toValueList es)
  | .obj fs => .map (toValueFields fs)

def toValueList : List JsonValue → List Value
  | [] => []
  | v :: vs => toValue v :: toValueList vs

def toValueFields : List (String × JsonValue) → List (String × Value)
  | [] => []
  | (k, v) :: fs => (k, toValue v) :: toValueFields fs

end

/-- Modelled from the spec: a Record is "an ordered, flat-or-nested
mapping from string keys to typed values". The real log event stores a
`BTreeMap<String, Value>`; we model it as an association list whose
lookup observes the same insert/overwrite semantics. -/
structure Event where
  fields : List (String × Value)

/-- Association-list update: replace the first binding of `k`, or append
a new binding. Observationally this is the map `insert` of the log
event's `BTreeMap` (lookup after update agrees). -/
def updateFields (fields : List (String × Value)) (k : String) (v : Value) :
    List (String × Value) :=
  match fields with
  | [] => [(k, v)]
  | (k', v') :: rest =>
      if k' = k then (k, v) :: rest else (k', v') :: updateFields rest k v

/-- Field lookup (`LogEvent::get` on a flat key). -/
def Event.getField (e : Event) (k : String) : Option Value :=
  (e.fields.find? (fun kv => kv.1 = k)).map (fun kv => kv.2)

/-- `LogEvent::insert_flat` / `LogEvent::insert` on a literal key:
unconditional overwrite. The enrichment keys and the schema keys used by
this source contain no path separators, so path-aware `insert` coincides
with flat insertion for them; a key containing a literal dot is kept as a
single leaf, which is exactly `insert_flat`. -/
def Event.insertFlat (e : Event) (k : String) (v : Value) : Event :=
  ⟨updateFields e.fields k v⟩

/-- `LogEvent::try_insert`: insert only if the key is absent. -/
def Event.tryInsert (e : Event) (k : String) (v : Value) : Event :=
  match e.getField k with
  | some _ => e
  | none => e.insertFlat k v

/-- `Event::new_empty_log()`. -/
def Event.newEmptyLog : Event := ⟨[]⟩

/-- Modelled from the spec: the global log schema's key names (the
defaults of `log_schema()`): message, timestamp and source-type keys. -/
def messageKey : String := "message"

def timestampKey : String := "timestamp"

def sourceTypeKey : String := "source_type"

/-- Modelled from the spec and the repository's own tests:
`Event::from(Bytes)`, used by Text-mode decoding — "each surviving
byte-fragment becomes one record whose sole content is that fragment".
The repository's tests (`http_multiline_text`, `http_multiline_text2`)
additionally assert that Text-mode records carry the timestamp key, so
the constructor inserts the fragment under the message key and the
current time under the timestamp key. -/
def Event.fromBytes (now : Nat) (message : String) : Event :=
  (Event.newEmptyLog.insertFlat messageKey (.bytes message)).insertFlat
    timestampKey (.timestamp now)

/-- `ErrorMessage` from `sources::util` (modelled from the spec: "a
tagged failure carrying an HTTP status code and a human-readable
message"). -/
structure ErrorMessage where
  code : Nat
  message : String
deriving Repr, DecidableEq

/-- `ErrorMessage::new`. -/
def ErrorMessage.new (code : Nat) (message : String) : ErrorMessage :=
  ⟨code, message⟩

/-- `StatusCode::BAD_REQUEST`. -/
def badRequest : Nat := 400

/-- The `Encoding` enum of the source configuration. -/
inductive Encoding where
  | text
  | ndjson
  | json
deriving Repr, DecidableEq

/-- `Default` for `Encoding` (`#[derivative(Default)]` on `Text`). -/
def Encoding.default : Encoding := .text

/-! ## JSON parsing (model of `serde_json::from_slice`) -/

/-- Skip JSON whitespace. -/
def skipWs : List Char → List Char
  | [] => []
  | c :: cs =>
      if c = ' ' ∨ c = '\n' ∨ c = '\t' ∨ c = '\r' then skipWs cs else c :: cs

/-- Parse the body of a JSON string literal after the opening quote,
returning the decoded characters and the input after the closing quote. -/
def parseStringBody : List Char → Except String (List Char × List Char)
  | [] => .error "EOF while parsing a string"
  | c :: rest =>
      if c = '"' then .ok ([], rest)
      else if c = '\\' then
        match rest with
        | [] => .error "EOF while parsing a string"
        | e :: rest' => do
            let esc ←
              match e with
              | '"' => Except.ok '"'
              | '\\' => Except.ok '\\'
              | '/' => Except.ok '/'
              | 'n' => Except.ok '\n'
              | 't' => Except.ok '\t'
              | 'r' => Except.ok '\r'
              | _ => Except.error "invalid escape"
            let (s, r) ← parseStringBody rest'
            Except.ok (esc :: s, r)
      else do
        let (s, r) ← parseStringBody rest
        Except.ok (c :: s, r)

/-- Value of a list of decimal digit characters. -/
def natOfDigits (ds : List Char) : Nat :=
  ds.foldl (fun n c => 10 * n + (c.toNat - '0'.toNat)) 0

mutual

/-- Modelled from the spec: the external JSON parser
(`serde_json::from_slice`), restricted to the JSON subset exercised here
(objects, arrays, strings with simple escapes, integer numbers, booleans,
null). `fuel` bounds recursion depth; the entry point supplies enough of
it for any input. -/
def parseValue : Nat → List Char → Except String (JsonValue × List Char)
  | 0, _ => .error "recursion limit exceeded"
  | Nat.succ fuel, cs =>
      match skipWs cs with
      | [] => .error "EOF while parsing a value"
      | 'n' :: 'u' :: 'l' :: 'l' :: rest => .ok (.null, rest)
      | 't' :: 'r' :: 'u' :: 'e' :: rest => .ok (.bool true, rest)
      | 'f' :: 'a' :: 'l' :: 's' :: 'e' :: rest => .ok (.bool false, rest)
      | '"' :: rest => do
          let (s, r) ← parseStringBody rest
          Except.ok (.str (String.mk s), r)
      | '[' :: rest => do
          let (es, r) ← parseArrayItems fuel (skipWs rest) true
          Except.ok (.arr es, r)
      | '\x7b' :: rest => do
          let (fs, r) ← parseObjectItems fuel (skipWs rest) true
          Except.ok (.obj fs, r)
      | '-' :: rest =>
          match rest.span (fun c => c.isDigit) with
          | ([], _) => .error "expected a digit"
          | (ds, r) => .ok (.num (-(Int.ofNat (natOfDigits ds))), r)
      | c :: rest =>
          if c.isDigit then
            match (c :: rest).span (fun c => c.isDigit) with
            | (ds, r) => .ok (.num (Int.ofNat (natOfDigits ds)), r)
          else .error "expected value"

/-- Elements of a JSON array after `[` (leading whitespace skipped);
`first` is true before the first element. -/
def parseArrayItems (fuel : Nat) (cs : List Char) (first : Bool) :
    Except String (List JsonValue × List Char) :=
  match fuel with
  | 0 => .error "recursion limit exceeded"
  | Nat.succ fuel =>
      match cs, first with
      | ']' :: rest, true => .ok ([], rest)
      | cs, _ => do
          let (v, r) ← parseValue fuel cs
          match skipWs r with
          | ',' :: rest => do
              let (vs, r') ← parseArrayItems fuel (skipWs rest) false
              Except.ok (v :: vs, r')
          | ']' :: rest => Except.ok ([v], rest)
          | _ => Except.error "expected comma or end of array"

/-- Members of a JSON object after `{` (leading whitespace skipped);
`first` is true before the first member. -/
def parseObjectItems (fuel : Nat) (cs : List Char) (first : Bool) :
    Except String (List (String × JsonValue) × List Char) :=
  match fuel with
  | 0 => .error "recursion limit exceeded"
  | Nat.succ fuel =>
      match cs, first with
      | '\x7d' :: rest, true => .ok ([], rest)
      | '"' :: cs, _ => do
          let (k, r) ← parseStringBody cs
          match skipWs r with
          | ':' :: rest => do
              let (v, r') ← parseValue fuel (skipWs rest)
              match skipWs r' with
              | ',' :: rest' => do
                  let (fs, r'') ← parseObjectItems fuel (skipWs rest') false
                  Except.ok ((String.mk k, v) :: fs, r'')
              | '\x7d' :: rest' => Except.ok ([(String.mk k, v)], rest')
              | _ => Except.error "expected comma or end of object"
          | _ => Except.error "expected colon"
      | _, _ => .error "key must be a string"

end

/-- `serde_json::from_slice` on a whole payload: one JSON value followed
only by whitespace; anything else (including an empty input) fails. -/
def jsonFromSlice (s : String) : Except String JsonValue := do
  let (v, rest) ← parseValue (s.data.length + 1) s.data
  match skipWs rest with
  | [] => Except.ok v
  | _ => Except.error "trailing characters"

/-! ## Line splitting (`body_to_lines`) -/

/-- Split a character sequence at newline bytes. `BytesDelimitedCodec`'s
`decode_eof` loop with an unbounded frame length yields the frames before
each newline and, at end of input, the remaining bytes; an input without
a trailing newline and the same input with one produce the same frames up
to one trailing empty frame. The codec never errors (the length limit is
`usize::MAX`). -/
def splitNl : List Char → List (List Char)
  | [] => [[]]
  | c :: cs =>
      match splitNl cs with
      | [] => [[]]
      | l :: ls => if c = '\n' then [] :: l :: ls else (c :: l) :: ls

/-- `body_to_lines`: frame the body at newlines and filter out the empty
fragments (`filter` on `!b.is_empty()`). -/
def body_to_lines (body : String) : List String :=
  ((splitNl body.data).filter (fun l => l ≠ [])).map (fun l => String.mk l)

/-! ## Decoding (`decode_body`) -/

/-- `Iterator::collect::<Result<Vec<_>, _>>()`: collect a sequence of
results into a result of a sequence, stopping at the first error. -/
def collectResults {α : Type} : List (Except ErrorMessage α) → Except ErrorMessage (List α)
  | [] => .ok []
  | r :: rest => do
      let x ← r
      let xs ← collectResults rest
      Except.ok (x :: xs)

/-- `json_error`: a 400 error with a `Bad JSON: `-prefixed message. -/
def json_error (s : String) : ErrorMessage :=
  ErrorMessage.new badRequest ("Bad JSON: " ++ s)

/-- `json_value_to_type_string`. -/
def json_value_to_type_string : JsonValue → String
  | .obj _ => "Object"
  | .arr _ => "Array"
  | .str _ => "String"
  | .num _ => "Number"
  | .bool _ => "Bool"
  | .null => "Null"

/-- `json_parse_object`: a parsed JSON value must be an object; a fresh
record receives the decode-time timestamp and then the object's bindings
via `insert_flat` (left to right, later bindings overwriting earlier
ones, dotted keys kept as literal leaves). -/
def json_parse_object (now : Nat) (value : JsonValue) : Except ErrorMessage Event :=
  match value with
  | .obj map =>
      Except.ok
        (map.foldl (fun ev kv => ev.insertFlat kv.1 (toValue kv.2))
          (Event.newEmptyLog.insertFlat timestampKey (.timestamp now)))
  | _ =>
      Except.error
        (json_error ("Expected Object, got " ++ json_value_to_type_string value))

/-- `json_parse_array_of_object`: an array is decoded element-wise (each
element must be an object), a single object is a one-element batch, and
any other shape is a 400 error naming the observed kind. -/
def json_parse_array_of_object (now : Nat) (value : JsonValue) :
    Except ErrorMessage (List Event) :=
  match value with
  | .arr v => collectResults (v.map (json_parse_object now))
  | .obj map => do
      let e ← json_parse_object now (.obj map)
      Except.ok [e]
  | _ =>
      Except.error
        (json_error
          ("Expected Array or Object, got " ++ json_value_to_type_string value ++ "."))

/-- `decode_body`: dispatch on the encoding. Text wraps each non-empty
line in an event; Ndjson parses each non-empty line as a JSON object;
Json parses the whole body as one JSON value. -/
def decode_body (now : Nat) (enc : Encoding) (body : String) :
    Except ErrorMessage (List Event) :=
  match enc with
  | .text =>
      collectResults
        ((body_to_lines body).map (fun line => Except.ok (Event.fromBytes now line)))
  | .ndjson =>
      collectResults
        ((body_to_lines body).map (fun line => do
          let parsed ←
            (jsonFromSlice line).mapError
              (fun error => json_error ("Error parsing Ndjson: " ++ error))
          json_parse_object now parsed))
  | .json => do
      let parsed ←
        (jsonFromSlice body).mapError
          (fun error => json_error ("Error parsing Json: " ++ error))
      json_parse_array_of_object now parsed

/-- The per-line decoding function of Ndjson mode (the closure inside
`decode_body`): parse the line as JSON, then require an object. -/
def ndjsonLine (now : Nat) (line : String) : Except ErrorMessage Event := do
  let parsed ←
    (jsonFromSlice line).mapError
      (fun error => json_error ("Error parsing Ndjson: " ++ error))
  json_parse_object now parsed

/-! ## Enrichment (`build_event` and helpers) -/

/-- The request's header map (raw byte values modelled as strings). -/
structure HeaderMap where
  entries : List (String × String)

/-- `HeaderMap::get`: first entry with the given name, if any. -/
def HeaderMap.get (hm : HeaderMap) (name : String) : Option String :=
  (hm.entries.find? (fun kv => kv.1 = name)).map (fun kv => kv.2)

/-- The request's query parameters (`HashMap<String, String>` modelled
as an association list with first-match lookup). -/
abbrev QueryMap : Type := List (String × String)

/-- Query-parameter lookup. -/
def QueryMap.get (qm : QueryMap) (name : String) : Option String :=
  (List.find? (fun kv => kv.1 = name) qm).map (fun kv => kv.2)

/-- `Value::from(Option<Bytes>)`: a present value maps to bytes, an
absent one to an explicit null. -/
def valueOfOpt : Option String → Value
  | some s => .bytes s
  | none => .null

/-- `add_path`: unconditionally insert the matched request path under
the configured path key into every event. -/
def add_path (events : List Event) (key : String) (path : String) : List Event :=
  events.map (fun e => e.insertFlat key (.bytes path))

/-- `add_headers`: for each configured header name in order, insert that
name into every event, holding the header's value or null. -/
def add_headers (events : List Event) (headers_config : List String)
    (headers : HeaderMap) : List Event :=
  headers_config.foldl
    (fun evs header_name =>
      evs.map (fun e => e.insertFlat header_name (valueOfOpt (headers.get header_name))))
    events

/-- Modelled from the spec: `add_query_parameters` from `sources::util`
— "for each configured query-parameter name (in configured order), same
present/absent-as-null rule" as `add_headers`. -/
def add_query_parameters (events : List Event) (query_config : List String)
    (query : QueryMap) : List Event :=
  query_config.foldl
    (fun evs name =>
      evs.map (fun e => e.insertFlat name (valueOfOpt (query.get name))))
    events

/-- The per-request decoding state of the source (the fields of
`SimpleHttpSource` used by `build_event`). -/
structure SimpleHttpSource where
  encoding : Encoding
  headers : List String
  query_parameters : List String
  path_key : String

/-- The source-type injection step at the end of `build_event`:
`try_insert` of the literal `"http"` under the schema's source-type key
into every event. -/
def addSourceType (events : List Event) : List Event :=
  events.map (fun e => e.tryInsert sourceTypeKey (.bytes "http"))

/-- The enrichment pipeline of `build_event`, applied to a decoded
batch: headers, then query parameters, then path, then source type. -/
def enrich (s : SimpleHttpSource) (header_map : HeaderMap) (query : QueryMap)
    (request_path : String) (events : List Event) : List Event :=
  addSourceType
    (add_path
      (add_query_parameters (add_headers events s.headers header_map)
        s.query_parameters query)
      s.path_key request_path)

/-- `build_event`: decode the body, then enrich the batch. -/
def build_event (s : SimpleHttpSource) (now : Nat) (body : String)
    (header_map : HeaderMap) (query : QueryMap) (request_path : String) :
    Except ErrorMessage (List Event) :=
  (decode_body now s.encoding body).map (enrich s header_map query request_path)

/-! ## Configuration (`SimpleHttpConfig`) -/

/-- The configuration schema of the source. TLS and auth settings are
opaque external collaborators, modelled as option placeholders; the
socket address is modelled as its string rendering. -/
structure SimpleHttpConfig where
  address : String
  encoding : Encoding
  headers : List String
  query_parameters : List String
  tls : Option Unit
  auth : Option Unit
  strict_path : Bool
  url_path : String
  path_key : String
deriving Repr, DecidableEq

/-- The `Default` implementation for `SimpleHttpConfig`. -/
def defaultSimpleHttpConfig : SimpleHttpConfig :=
  ⟨"0.0.0.0:80", Encoding.default, [], [], none, none, true, "/", "path"⟩

/-- A configuration input in which every field may be absent. -/
structure PartialSimpleHttpConfig where
  address : Option String
  encoding : Option Encoding
  headers : Option (List String)
  query_parameters : Option (List String)
  tls : Option (Option Unit)
  auth : Option (Option Unit)
  strict_path : Option Bool
  url_path : Option String
  path_key : Option String

/-- Modelled from the spec: deserialization of the config under serde's
container-level `#[serde(default)]` attribute — every field absent from
the input is taken from the `Default` implementation; no field is
required. -/
def deserializeConfig (p : PartialSimpleHttpConfig) : Option SimpleHttpConfig :=
  some
    ⟨p.address.getD defaultSimpleHttpConfig.address,
      p.encoding.getD defaultSimpleHttpConfig.encoding,
      p.headers.getD defaultSimpleHttpConfig.headers,
      p.query_parameters.getD defaultSimpleHttpConfig.query_parameters,
      p.tls.getD defaultSimpleHttpConfig.tls,
      p.auth.getD defaultSimpleHttpConfig.auth,
      p.strict_path.getD defaultSimpleHttpConfig.strict_path,
      p.url_path.getD defaultSimpleHttpConfig.url_path,
      p.path_key.getD defaultSimpleHttpConfig.path_key⟩

/-- The configuration input with every field absent. -/
def emptyPartialConfig : PartialSimpleHttpConfig :=
  ⟨none, none, none, none, none, none, none, none, none⟩

/-! ## Predicates and single-event forms used by the statements -/

/-- Whether a fragment parses as a JSON object (the Ndjson per-line
requirement). -/
def parsesAsObject (frag : String) : Bool :=
  match jsonFromSlice frag with
  | .ok (.obj _) => true
  | _ => false

/-- Whether a JSON value is an object. -/
def isObj : JsonValue → Bool
  | .obj _ => true
  | _ => false

/-- Whether a JSON value is an array. -/
def isArr : JsonValue → Bool
  | .arr _ => true
  | _ => false

/-- `add_headers` as a per-event function: fold the configured header
names over one event. -/
def applyHeaders (cfg : List String) (hm : HeaderMap) (e : Event) : Event :=
  cfg.foldl (fun e h => e.insertFlat h (valueOfOpt (hm.get h))) e

/-- `add_query_parameters` as a per-event function. -/
def applyQuery (cfg : List String) (qm : QueryMap) (e : Event) : Event :=
  cfg.foldl (fun e q => e.insertFlat q (valueOfOpt (qm.get q))) e

/-- The whole enrichment pipeline as a per-event function. -/
def applyEnrich (s : SimpleHttpSource) (hm : HeaderMap) (qm : QueryMap)
    (path : String) (e : Event) : Event :=
  ((applyQuery s.query_parameters qm (applyHeaders s.headers hm e)).insertFlat
      s.path_key (.bytes path)).tryInsert sourceTypeKey (.bytes "http")

/-- The claim that the listening address is a required configuration
field: no configuration missing it may deserialize. -/
def addressRequired : Prop :=
  ∀ p : PartialSimpleHttpConfig,
    (deserializeConfig p).isSome = true → p.address.isSome = true

/-! ## Lemmas: field lookup after insertion -/

theorem getField_insertFlat_self (e : Event) (k : String) (v : Value) :
    (e.insertFlat k v).getField k = some v := by
  obtain ⟨fs⟩ := e
  simp only [Event.insertFlat, Event.getField]
  induction fs with
  | nil => simp [updateFields]
  | cons kv rest ih =>
      obtain ⟨k', v'⟩ := kv
      by_cases hk : k' = k
      · subst hk
        simp [updateFields]
      · simpa [updateFields, hk, List.find?] using ih

theorem getField_insertFlat_ne (e : Event) {k k' : String} (v : Value)
    (h : k' ≠ k) : (e.insertFlat k v).getField k' = e.getField k' := by
  obtain ⟨fs⟩ := e
  simp only [Event.insertFlat, Event.getField]
  induction fs with
  | nil => simp [updateFields, List.find?, Ne.symm h]
  | cons kv rest ih =>
      obtain ⟨k'', v''⟩ := kv
      by_cases hk : k'' = k
      · subst hk
        simp [updateFields, List.find?, h, Ne.symm h]
      · by_cases hk' : k'' = k'
        · subst hk'
          simp [updateFields, hk, List.find?]
        · simpa [updateFields, hk, hk', List.find?] using ih

theorem getField_insertFlat_isSome (e : Event) (k k' : String) (v : Value)
    (h : (e.getField k').isSome = true) :
    ((e.insertFlat k v).getField k').isSome = true := by
  by_cases hk : k' = k
  · subst hk
    simp [getField_insertFlat_self]
  · rwa [getField_insertFlat_ne e v hk]

theorem getField_tryInsert_preserved (e : Event) {k : String} (k' : String)
    {v : Value} (w : Value) (h : e.getField k = some v) :
    (e.tryInsert k' w).getField k = some v := by
  unfold Event.tryInsert
  by_cases hk : k = k'
  · subst hk
    simp [h]
  · cases hg : e.getField k'
    · simpa [hg, getField_insertFlat_ne e w hk] using h
    · simpa [hg] using h

theorem getField_tryInsert_ne (e : Event) {k k' : String} (v : Value)
    (h : k' ≠ k) : (e.tryInsert k v).getField k' = e.getField k' := by
  unfold Event.tryInsert
  cases hg : e.getField k
  · exact getField_insertFlat_ne e v h
  · rfl

theorem getField_tryInsert_isSome (e : Event) (k k' : String) (v : Value)
    (h : (e.getField k').isSome = true) :
    ((e.tryInsert k v).getField k').isSome = true := by
  cases hg : e.getField k' with
  | none => simp [hg] at h
  | some w => simp [getField_tryInsert_preserved e k v hg]

/-! ## Lemmas: `collectResults` -/

theorem collectResults_map_ok {α β : Type} (g : α → β) (l : List α) :
    collectResults (l.map (fun x => Except.ok (g x))) = .ok (l.map g) := by
  induction l with
  | nil => rfl
  | cons a t ih => simp [collectResults, ih, Bind.bind, Except.bind]

theorem collectResults_error {α β : Type} (f : α → Except ErrorMessage β)
    (l : List α) (x : α) (hx : x ∈ l) (hf : ∀ y, f x ≠ .ok y) :
    ∃ z ∈ l, ∃ e, f z = .error e ∧ collectResults (l.map f) = .error e := by
  induction l with
  | nil => cases hx
  | cons a t ih =>
      cases hfa : f a with
      | error e =>
          exact ⟨a, List.mem_cons_self a t, e, hfa,
            by simp [collectResults, hfa, Bind.bind, Except.bind]⟩
      | ok b =>
          have hxt : x ∈ t := by
            rcases List.mem_cons.mp hx with h | h
            · exact absurd hfa (h ▸ hf b)
            · exact h
          obtain ⟨z, hz, e, hfz, hcoll⟩ := ih hxt
          exact ⟨z, List.mem_cons_of_mem a hz, e, hfz,
            by simp [collectResults, hfa, hcoll, Bind.bind, Except.bind]⟩

theorem collectResults_ok_of_all {α β : Type} (f : α → Except ErrorMessage β)
    (l : List α) (h : ∀ x ∈ l, ∃ y, f x = .ok y) :
    ∃ ys, collectResults (l.map f) = .ok ys ∧ ys.length = l.length ∧
      ∀ i (h1 : i < l.length) (h2 : i < ys.length), f l[i] = .ok ys[i] := by
  induction l with
  | nil => exact ⟨[], rfl, rfl, by intro i h1; cases h1⟩
  | cons a t ih =>
      obtain ⟨b, hb⟩ := h a (List.mem_cons_self a t)
      obtain ⟨ys, hys, hlen, hidx⟩ := ih (fun x hx => h x (List.mem_cons_of_mem a hx))
      refine ⟨b :: ys, ?_, by simp [hlen], ?_⟩
      · simp [collectResults, hb, hys, Bind.bind, Except.bind]
      · intro i h1 h2
        cases i with
        | zero => simpa using hb
        | succ j =>
            have h1' : j < t.length := by simpa using h1
            have h2' : j < ys.length := by simpa using h2
            simpa using hidx j h1' h2'

theorem collectResults_ok_members {α β : Type} (f : α → Except ErrorMessage β)
    (l : List α) (ys : List β) (h : collectResults (l.map f) = .ok ys) :
    ∀ y ∈ ys, ∃ x ∈ l, f x = .ok y := by
  induction l generalizing ys with
  | nil =>
      simp only [List.map_nil, collectResults] at h
      cases h
      intro y hy
      cases hy
  | cons a t ih =>
      simp only [List.map_cons, collectResults] at h
      cases hfa : f a with
      | error e => rw [hfa] at h; simp [Bind.bind, Except.bind] at h
      | ok b =>
          rw [hfa] at h
          cases hct : collectResults (t.map f) with
          | error e => rw [hct] at h; simp [Bind.bind, Except.bind] at h
          | ok bs =>
              rw [hct] at h
              simp only [Bind.bind, Except.bind, Except.ok.injEq] at h
              subst h
              intro y hy
              rcases List.mem_cons.mp hy with h | h
              · exact ⟨a, List.mem_cons_self a t, h ▸ hfa⟩
              · obtain ⟨x, hx, hfx⟩ := ih bs hct y h
                exact ⟨x, List.mem_cons_of_mem a hx, hfx⟩

/-! ## Lemmas: line splitting -/

theorem splitNl_ne_nil (cs : List Char) : splitNl cs ≠ [] := by
  cases cs with
  | nil => simp [splitNl]
  | cons c cs =>
      simp only [splitNl]
      cases h : splitNl cs with
      | nil => simp
      | cons l ls =>
          by_cases hc : c = '\n' <;> simp [hc]

theorem splitNl_append_newline (cs : List Char) :
    splitNl (cs ++ ['\n']) = splitNl cs ++ [[]] := by
  induction cs with
  | nil => rfl
  | cons c cs ih =>
      cases h : splitNl cs with
      | nil => exact absurd h (splitNl_ne_nil cs)
      | cons l ls =>
          rw [h] at ih
          by_cases hc : c = '\n' <;>
            simp [List.cons_append, splitNl, ih, h, hc]

theorem splitNl_all_newline (cs : List Char) (h : ∀ c ∈ cs, c = '\n') :
    ∀ l ∈ splitNl cs, l = [] := by
  induction cs with
  | nil =>
      intro l hl
      simp only [splitNl, List.mem_singleton] at hl
      exact hl
  | cons c cs ih =>
      have hc : c = '\n' := h c (List.mem_cons_self c cs)
      have ih' := ih (fun c' hc' => h c' (List.mem_cons_of_mem c hc'))
      intro l hl
      simp only [splitNl] at hl
      cases hsplit : splitNl cs with
      | nil => exact absurd hsplit (splitNl_ne_nil cs)
      | cons l' ls =>
          rw [hsplit] at hl
          simp only [hc, if_pos rfl] at hl
          rcases List.mem_cons.mp hl with h1 | h1
          · exact h1
          · exact ih' l (hsplit ▸ h1)

theorem body_to_lines_append_newline (body : String) :
    body_to_lines (body ++ "\n") = body_to_lines body := by
  have hdata : (body ++ "\n").data = body.data ++ ['\n'] := String.data_append body "\n"
  simp [body_to_lines, hdata, splitNl_append_newline, List.filter_append]

theorem body_to_lines_all_newline (body : String)
    (h : ∀ c ∈ body.data, c = '\n') : body_to_lines body = [] := by
  have hfil : (splitNl body.data).filter (fun l => l ≠ []) = [] := by
    rw [List.filter_eq_nil_iff]
    intro l hl
    simp [splitNl_all_newline body.data h l hl]
  unfold body_to_lines
  rw [hfil]
  rfl

/-! ## Lemmas: folded insertions -/

theorem getField_foldl_insertFlat_not_mem (fs : List (String × JsonValue))
    (e : Event) (k : String) (h : k ∉ fs.map Prod.fst) :
    ((fs.foldl (fun ev kv => ev.insertFlat kv.1 (toValue kv.2)) e).getField k) =
      e.getField k := by
  induction fs generalizing e with
  | nil => rfl
  | cons kv rest ih =>
      obtain ⟨k', v'⟩ := kv
      have hk : k ≠ k' := by
        intro hkk
        exact h (by simp [hkk])
      have hrest : k ∉ rest.map Prod.fst := fun hm => h (by simp [hm])
      rw [List.foldl_cons, ih _ hrest]
      exact getField_insertFlat_ne e (toValue v') hk

theorem getField_foldl_insertFlat_isSome (fs : List (String × JsonValue))
    (e : Event) (k : String) (h : (e.getField k).isSome = true) :
    (((fs.foldl (fun ev kv => ev.insertFlat kv.1 (toValue kv.2)) e).getField k)).isSome
      = true := by
  induction fs generalizing e with
  | nil => exact h
  | cons kv rest ih =>
      exact ih _ (getField_insertFlat_isSome e kv.1 k (toValue kv.2) h)

theorem getField_applyHeaders_not_mem (cfg : List String) (hm : HeaderMap)
    (e : Event) (k : String) (h : k ∉ cfg) :
    (applyHeaders cfg hm e).getField k = e.getField k := by
  induction cfg generalizing e with
  | nil => rfl
  | cons c rest ih =>
      have hk : k ≠ c := fun hkc => h (hkc ▸ List.mem_cons_self c rest)
      have hrest : k ∉ rest := fun hm' => h (List.mem_cons_of_mem c hm')
      simp only [applyHeaders, List.foldl_cons]
      rw [show (rest.foldl (fun e h => e.insertFlat h (valueOfOpt (hm.get h)))
            (e.insertFlat c (valueOfOpt (hm.get c)))) =
          applyHeaders rest hm (e.insertFlat c (valueOfOpt (hm.get c))) from rfl,
        ih _ hrest, getField_insertFlat_ne e _ hk]

theorem getField_applyHeaders_mem (cfg : List String) (hm : HeaderMap)
    (e : Event) (k : String) (h : k ∈ cfg) :
    (applyHeaders cfg hm e).getField k = some (valueOfOpt (hm.get k)) := by
  induction cfg generalizing e with
  | nil => cases h
  | cons c rest ih =>
      simp only [applyHeaders, List.foldl_cons]
      rw [show (rest.foldl (fun e h => e.insertFlat h (valueOfOpt (hm.get h)))
            (e.insertFlat c (valueOfOpt (hm.get c)))) =
          applyHeaders rest hm (e.insertFlat c (valueOfOpt (hm.get c))) from rfl]
      by_cases hk : k ∈ rest
      · exact ih _ hk
      · have hkc : k = c := by
          rcases List.mem_cons.mp h with h1 | h1
          · exact h1
          · exact absurd h1 hk
        subst hkc
        rw [getField_applyHeaders_not_mem rest hm _ k hk,
          getField_insertFlat_self]

theorem getField_applyHeaders_isSome (cfg : List String) (hm : HeaderMap)
    (e : Event) (k : String) (h : (e.getField k).isSome = true) :
    ((applyHeaders cfg hm e).getField k).isSome = true := by
  induction cfg generalizing e with
  | nil => exact h
  | cons c rest ih =>
      simp only [applyHeaders, List.foldl_cons]
      exact ih _ (getField_insertFlat_isSome e c k _ h)

theorem getField_applyQuery_not_mem (cfg : List String) (qm : QueryMap)
    (e : Event) (k : String) (h : k ∉ cfg) :
    (applyQuery cfg qm e).getField k = e.getField k := by
  induction cfg generalizing e with
  | nil => rfl
  | cons c rest ih =>
      have hk : k ≠ c := fun hkc => h (hkc ▸ List.mem_cons_self c rest)
      have hrest : k ∉ rest := fun hm' => h (List.mem_cons_of_mem c hm')
      simp only [applyQuery, List.foldl_cons]
      rw [show (rest.foldl (fun e q => e.insertFlat q (valueOfOpt (qm.get q)))
            (e.insertFlat c (valueOfOpt (qm.get c)))) =
          applyQuery rest qm (e.insertFlat c (valueOfOpt (qm.get c))) from rfl,
        ih _ hrest, getField_insertFlat_ne e _ hk]

theorem getField_applyQuery_mem (cfg : List String) (qm : QueryMap)
    (e : Event) (k : String) (h : k ∈ cfg) :
    (applyQuery cfg qm e).getField k = some (valueOfOpt (qm.get k)) := by
  induction cfg generalizing e with
  | nil => cases h
  | cons c rest ih =>
      simp only [applyQuery, List.foldl_cons]
      rw [show (rest.foldl (fun e q => e.insertFlat q (valueOfOpt (qm.get q)))
            (e.insertFlat c (valueOfOpt (qm.get c)))) =
          applyQuery rest qm (e.insertFlat c (valueOfOpt (qm.get c))) from rfl]
      by_cases hk : k ∈ rest
      · exact ih _ hk
      · have hkc : k = c := by
          rcases List.mem_cons.mp h with h1 | h1
          · exact h1
          · exact absurd h1 hk
        subst hkc
        rw [getField_applyQuery_not_mem rest qm _ k hk,
          getField_insertFlat_self]

theorem getField_applyQuery_isSome (cfg : List String) (qm : QueryMap)
    (e : Event) (k : String) (h : (e.getField k).isSome = true) :
    ((applyQuery cfg qm e).getField k).isSome = true := by
  induction cfg generalizing e with
  | nil => exact h
  | cons c rest ih =>
      simp only [applyQuery, List.foldl_cons]
      exact ih _ (getField_insertFlat_isSome e c k _ h)

/-! ## Lemmas: the enrichment pipeline as a per-event map -/

theorem add_headers_eq_map (evs : List Event) (cfg : List String)
    (hm : HeaderMap) : add_headers evs cfg hm = evs.map (applyHeaders cfg hm) := by
  induction cfg generalizing evs with
  | nil => exact (List.map_id evs).symm
  | cons c rest ih =>
      simp only [add_headers, List.foldl_cons] at *
      rw [ih, List.map_map]
      rfl

theorem add_query_parameters_eq_map (evs : List Event) (cfg : List String)
    (qm : QueryMap) :
    add_query_parameters evs cfg qm = evs.map (applyQuery cfg qm) := by
  induction cfg generalizing evs with
  | nil => exact (List.map_id evs).symm
  | cons c rest ih =>
      simp only [add_query_parameters, List.foldl_cons] at *
      rw [ih, List.map_map]
      rfl

theorem enrich_eq_map (s : SimpleHttpSource) (hm : HeaderMap) (qm : QueryMap)
    (path : String) (events : List Event) :
    enrich s hm qm path events = events.map (applyEnrich s hm qm path) := by
  simp only [enrich, addSourceType, add_path, add_headers_eq_map,
    add_query_parameters_eq_map, List.map_map]
  rfl

/-! ## Lemmas: the JSON object decoder -/

theorem decode_ndjson_eq (now : Nat) (body : String) :
    decode_body now .ndjson body =
      collectResults ((body_to_lines body).map (ndjsonLine now)) := rfl

theorem decode_json_of_parse (now : Nat) (body : String) (v : JsonValue)
    (h : jsonFromSlice body = .ok v) :
    decode_body now .json body = json_parse_array_of_object now v := by
  simp [decode_body, h, Except.mapError, Bind.bind, Except.bind]

theorem decode_json_of_parse_error (now : Nat) (body : String) (err : String)
    (h : jsonFromSlice body = .error err) :
    decode_body now .json body =
      .error (json_error ("Error parsing Json: " ++ err)) := by
  simp [decode_body, h, Except.mapError, Bind.bind, Except.bind]

theorem json_parse_object_obj (now : Nat) (fs : List (String × JsonValue)) :
    json_parse_object now (.obj fs) =
      .ok (fs.foldl (fun ev kv => ev.insertFlat kv.1 (toValue kv.2))
        (Event.newEmptyLog.insertFlat timestampKey (.timestamp now))) := rfl

theorem json_parse_object_not_obj (now : Nat) (v : JsonValue)
    (h : isObj v = false) :
    json_parse_object now v =
      .error (json_error ("Expected Object, got " ++ json_value_to_type_string v)) := by
  cases v <;> first | rfl | simp [isObj] at h

theorem json_parse_object_error_shape (now : Nat) (v : JsonValue)
    (e : ErrorMessage) (h : json_parse_object now v = .error e) :
    isObj v = false ∧
      e = json_error ("Expected Object, got " ++ json_value_to_type_string v) := by
  cases v <;> simp_all [json_parse_object, isObj]

theorem json_parse_object_ok_timestamp (now : Nat) (v : JsonValue) (ev : Event)
    (h : json_parse_object now v = .ok ev) :
    (ev.getField timestampKey).isSome = true := by
  cases v with
  | obj fs =>
      rw [json_parse_object_obj] at h
      cases h
      exact getField_foldl_insertFlat_isSome fs _ timestampKey
        (by simp [getField_insertFlat_self])
  | null => simp [json_parse_object] at h
  | bool b => simp [json_parse_object] at h
  | num n => simp [json_parse_object] at h
  | str s => simp [json_parse_object] at h
  | arr es => simp [json_parse_object] at h

theorem ndjsonLine_fails (now : Nat) (line : String)
    (h : parsesAsObject line = false) : ∀ y, ndjsonLine now line ≠ .ok y := by
  intro y hy
  unfold ndjsonLine at hy
  cases hjs : jsonFromSlice line with
  | error err => simp [hjs, Except.mapError, Bind.bind, Except.bind] at hy
  | ok v =>
      rw [hjs] at hy
      simp only [Except.mapError, Bind.bind, Except.bind] at hy
      have hv : isObj v = false := by
        cases v <;> simp_all [parsesAsObject, hjs, isObj]
      rw [json_parse_object_not_obj now v hv] at hy
      cases hy

theorem ndjsonLine_error_shape (now : Nat) (line : String) (e : ErrorMessage)
    (h : ndjsonLine now line = .error e) :
    e.code = 400 ∧ ∃ rest, e.message = "Bad JSON: " ++ rest := by
  unfold ndjsonLine at h
  cases hjs : jsonFromSlice line with
  | error err =>
      rw [hjs] at h
      simp only [Except.mapError, Bind.bind, Except.bind, Except.error.injEq] at h
      subst h
      exact ⟨rfl, _, rfl⟩
  | ok v =>
      rw [hjs] at h
      simp only [Except.mapError, Bind.bind, Except.bind] at h
      obtain ⟨hv, he⟩ := json_parse_object_error_shape now v e h
      subst he
      exact ⟨rfl, _, rfl⟩

/-! ## Claim theorems -/

/-- C3: In Text mode, `decode_body` always succeeds and produces one
record per non-empty newline-separated fragment of the payload, in
payload order (each record holding that fragment); the result does not
depend on a trailing newline; an empty body or a body of only newline
characters yields zero records, not an error. -/
theorem text_mode_record_count (now : Nat) (body : String) :
    (decode_body now .text body =
      .ok ((body_to_lines body).map (Event.fromBytes now))) ∧
    (decode_body now .text (body ++ "\n") = decode_body now .text body) ∧
    ((∀ c ∈ body.data, c = '\n') → decode_body now .text body = .ok []) ∧
    decode_body now .text "" = .ok [] := by
  have heq : ∀ b : String, decode_body now .text b =
      .ok ((body_to_lines b).map (Event.fromBytes now)) := by
    intro b
    unfold decode_body
    exact collectResults_map_ok (Event.fromBytes now) (body_to_lines b)
  refine ⟨heq body, ?_, ?_, ?_⟩
  · rw [heq (body ++ "\n"), heq body, body_to_lines_append_newline]
  · intro hblank
    rw [heq body, body_to_lines_all_newline body hblank]
    rfl
  · rfl

/-- Witness for C3: the blank-only hypothesis discharged on the payload
`"\n\n"`, which decodes to zero records. -/
theorem text_mode_record_count_witness :
    decode_body 0 .text "\n\n" = .ok [] :=
  (text_mode_record_count 0 "\n\n").2.2.1 (by decide)

/-- C1: In Ndjson mode decoding is all-or-nothing: if any non-empty
newline-separated fragment of the payload fails to parse as a JSON
object, `decode_body` returns a `DecodeError` with HTTP status 400 whose
message names the parse error (it extends the `Bad JSON: ` diagnostic
prefix), and no records are produced for the request. -/
theorem ndjson_all_or_nothing (now : Nat) (body : String)
    (h : ∃ frag ∈ body_to_lines body, parsesAsObject frag = false) :
    ∃ e, decode_body now .ndjson body = .error e ∧ e.code = 400 ∧
      ∃ rest, e.message = "Bad JSON: " ++ rest := by
  obtain ⟨frag, hfrag, hbad⟩ := h
  obtain ⟨z, _, e, hfz, hcoll⟩ :=
    collectResults_error (ndjsonLine now) (body_to_lines body) frag hfrag
      (ndjsonLine_fails now frag hbad)
  obtain ⟨hcode, hmsg⟩ := ndjsonLine_error_shape now z e hfz
  exact ⟨e, by rw [decode_ndjson_eq]; exact hcoll, hcode, hmsg⟩

/-- Witness for C1: the payload whose first line is a valid JSON object
and whose second line `{` is malformed aborts with a 400 `Bad JSON`
error. -/
theorem ndjson_all_or_nothing_witness :
    ∃ e, decode_body 0 .ndjson "\x7b\"a\":1\x7d\n\x7b" = .error e ∧
      e.code = 400 ∧ ∃ rest, e.message = "Bad JSON: " ++ rest :=
  ndjson_all_or_nothing 0 "\x7b\"a\":1\x7d\n\x7b"
    ⟨"\x7b", by decide, by decide⟩

theorem ndjsonLine_ok (now : Nat) (line : String) (e : Event)
    (h : ndjsonLine now line = .ok e) :
    ∃ v, json_parse_object now v = .ok e := by
  unfold ndjsonLine at h
  cases hjs : jsonFromSlice line with
  | error err =>
      rw [hjs] at h
      simp [Except.mapError, Bind.bind, Except.bind] at h
  | ok v =>
      rw [hjs] at h
      simp only [Except.mapError, Bind.bind, Except.bind] at h
      exact ⟨v, h⟩

/-- C2: In Json mode `decode_body` parses the whole payload as one JSON
value: an array of objects yields one record per element in array order;
a single object yields exactly one record; any other top-level shape
yields a 400 error naming the observed kind, as does an array containing
a non-object element. -/
theorem json_mode_shape_dispatch :
    (∀ (now : Nat) (body : String) (elems : List JsonValue),
      jsonFromSlice body = .ok (.arr elems) → (∀ v ∈ elems, isObj v = true) →
      ∃ events, decode_body now .json body = .ok events ∧
        events.length = elems.length ∧
        ∀ i (h1 : i < elems.length) (h2 : i < events.length),
          json_parse_object now elems[i] = .ok events[i]) ∧
    (∀ (now : Nat) (body : String) (fields : List (String × JsonValue)),
      jsonFromSlice body = .ok (.obj fields) →
      ∃ ev, decode_body now .json body = .ok [ev]) ∧
    (∀ (now : Nat) (body : String) (v : JsonValue),
      jsonFromSlice body = .ok v → isObj v = false → isArr v = false →
      ∃ e, decode_body now .json body = .error e ∧ e.code = 400 ∧
        e.message =
          "Bad JSON: Expected Array or Object, got " ++
            json_value_to_type_string v ++ ".") ∧
    (∀ (now : Nat) (body : String) (elems : List JsonValue),
      jsonFromSlice body = .ok (.arr elems) → (∃ v ∈ elems, isObj v = false) →
      ∃ e w, decode_body now .json body = .error e ∧ e.code = 400 ∧
        w ∈ elems ∧ isObj w = false ∧
        e.message =
          "Bad JSON: Expected Object, got " ++ json_value_to_type_string w) := by
  refine ⟨?_, ?_, ?_, ?_⟩
  · intro now body elems hparse hall
    rw [decode_json_of_parse now body _ hparse]
    have hok : ∀ v ∈ elems, ∃ y, json_parse_object now v = .ok y := by
      intro v hv
      have hv' := hall v hv
      cases v with
      | obj fs => exact ⟨_, json_parse_object_obj now fs⟩
      | null => simp [isObj] at hv'
      | bool b => simp [isObj] at hv'
      | num n => simp [isObj] at hv'
      | str s => simp [isObj] at hv'
      | arr es => simp [isObj] at hv'
    obtain ⟨ys, hys, hlen, hidx⟩ :=
      collectResults_ok_of_all (json_parse_object now) elems hok
    exact ⟨ys, hys, hlen, hidx⟩
  · intro now body fields hparse
    rw [decode_json_of_parse now body _ hparse]
    refine ⟨fields.foldl
      (fun (ev : Event) (kv : String × JsonValue) => ev.insertFlat kv.1 (toValue kv.2))
      (Event.newEmptyLog.insertFlat timestampKey (.timestamp now)), ?_⟩
    rfl
  · intro now body v hparse hobj harr
    rw [decode_json_of_parse now body _ hparse]
    cases v <;> simp_all [isObj, isArr] <;>
      exact ⟨_, rfl, rfl, rfl⟩
  · intro now body elems hparse hbad
    rw [decode_json_of_parse now body _ hparse]
    obtain ⟨v, hv, hvobj⟩ := hbad
    have hfail : ∀ y, json_parse_object now v ≠ .ok y := by
      intro y hy
      rw [json_parse_object_not_obj now v hvobj] at hy
      cases hy
    obtain ⟨z, hz, e, hfz, hcoll⟩ :=
      collectResults_error (json_parse_object now) elems v hv hfail
    obtain ⟨hzobj, he⟩ := json_parse_object_error_shape now z e hfz
    subst he
    exact ⟨_, z, hcoll, rfl, hz, hzobj, rfl⟩

/-- Witness for C2: the four hypothesised branches at concrete inputs —
`[\x7b\x7d,\x7b\x7d]` (array of two objects), `\x7b\x7d` (single
object), `true` (non-container shape names its kind), `[1]` (array with
a non-object element). -/
theorem json_mode_shape_dispatch_witness :
    (∃ events, decode_body 0 .json "[\x7b\x7d,\x7b\x7d]" = .ok events ∧
      events.length = 2) ∧
    (∃ ev, decode_body 0 .json "\x7b\x7d" = .ok [ev]) ∧
    (∃ e, decode_body 0 .json "true" = .error e ∧ e.code = 400 ∧
      e.message =
        "Bad JSON: Expected Array or Object, got " ++
          json_value_to_type_string (.bool true) ++ ".") ∧
    (∃ e w, decode_body 0 .json "[1]" = .error e ∧ e.code = 400 ∧
      w ∈ [JsonValue.num 1] ∧ isObj w = false ∧
      e.message =
        "Bad JSON: Expected Object, got " ++ json_value_to_type_string w) := by
  obtain ⟨h1, h2, h3, h4⟩ := json_mode_shape_dispatch
  refine ⟨?_, ?_, ?_, ?_⟩
  · obtain ⟨events, he, hl, _⟩ :=
      h1 0 "[\x7b\x7d,\x7b\x7d]" [.obj [], .obj []] rfl (by decide)
    exact ⟨events, he, hl.trans rfl⟩
  · exact h2 0 "\x7b\x7d" [] rfl
  · exact h3 0 "true" (.bool true) rfl rfl rfl
  · exact h4 0 "[1]" [.num 1] rfl ⟨.num 1, List.mem_singleton_self _, rfl⟩

/-- C4 counterexample: the claim says Text-mode records carry no
timestamp field, but decoding `"hello"` in Text mode produces a record
whose timestamp key is present — the event constructor injects it, and
the repository's own tests (`http_multiline_text`) assert exactly this. -/
theorem text_mode_timestamp_cex :
    decode_body 0 .text "hello" = .ok [Event.fromBytes 0 "hello"] ∧
    (Event.fromBytes 0 "hello").getField timestampKey =
      some (.timestamp 0) := ⟨rfl, rfl⟩

/-- C4 amended: a timestamp key is injected into every record in every
mode: the JSON-family modes insert it in `json_parse_object`, and Text
mode records receive it from the event constructor (`Event::from`), as
the repository's tests assert. -/
theorem timestamp_key_always_present (now : Nat) (mode : Encoding)
    (body : String) (events : List Event)
    (h : decode_body now mode body = .ok events) :
    ∀ e ∈ events, (e.getField timestampKey).isSome = true := by
  cases mode with
  | text =>
      unfold decode_body at h
      rw [collectResults_map_ok] at h
      cases h
      intro e he
      obtain ⟨line, _, rfl⟩ := List.mem_map.mp he
      simp [Event.fromBytes, getField_insertFlat_self]
  | ndjson =>
      rw [decode_ndjson_eq] at h
      intro e he
      obtain ⟨line, _, hline⟩ :=
        collectResults_ok_members (ndjsonLine now) (body_to_lines body) events h e he
      obtain ⟨v, hv⟩ := ndjsonLine_ok now line e hline
      exact json_parse_object_ok_timestamp now v e hv
  | json =>
      cases hjs : jsonFromSlice body with
      | error err =>
          rw [decode_json_of_parse_error now body err hjs] at h
          cases h
      | ok v =>
          rw [decode_json_of_parse now body v hjs] at h
          cases v with
          | arr es =>
              simp only [json_parse_array_of_object] at h
              intro e he
              obtain ⟨x, _, hx⟩ :=
                collectResults_ok_members (json_parse_object now) es events h e he
              exact json_parse_object_ok_timestamp now x e hx
          | obj fs =>
              rw [show json_parse_array_of_object now (.obj fs) =
                  .ok [(fs.foldl (fun ev kv => ev.insertFlat kv.1 (toValue kv.2))
                    (Event.newEmptyLog.insertFlat timestampKey (.timestamp now)))]
                from rfl] at h
              cases h
              intro e he
              rw [List.mem_singleton.mp he]
              exact json_parse_object_ok_timestamp now (.obj fs) _
                (json_parse_object_obj now fs)
          | null => exact nomatch h
          | bool b => exact nomatch h
          | num n => exact nomatch h
          | str s => exact nomatch h

/-- Witness for C4's amended theorem: the single record decoded from the
Json-mode payload `\x7b\x7d` carries the timestamp key. -/
theorem timestamp_key_always_present_witness :
    ((Event.mk [(timestampKey, Value.timestamp 0)]).getField timestampKey).isSome
      = true :=
  timestamp_key_always_present 0 .json "\x7b\x7d"
    [⟨[(timestampKey, Value.timestamp 0)]⟩] rfl _ (List.mem_singleton_self _)

/-! ## Per-event enrichment lemmas -/

theorem applyEnrich_sourceType_preserved (s : SimpleHttpSource) (hm : HeaderMap)
    (qm : QueryMap) (path : String) (e : Event) (v : Value)
    (hh : sourceTypeKey ∉ s.headers) (hq : sourceTypeKey ∉ s.query_parameters)
    (hp : sourceTypeKey ≠ s.path_key)
    (hv : e.getField sourceTypeKey = some v) :
    (applyEnrich s hm qm path e).getField sourceTypeKey = some v := by
  unfold applyEnrich
  apply getField_tryInsert_preserved
  rw [getField_insertFlat_ne _ _ hp, getField_applyQuery_not_mem _ _ _ _ hq,
    getField_applyHeaders_not_mem _ _ _ _ hh]
  exact hv

theorem applyEnrich_path (s : SimpleHttpSource) (hm : HeaderMap) (qm : QueryMap)
    (path : String) (e : Event) :
    (applyEnrich s hm qm path e).getField s.path_key = some (.bytes path) := by
  unfold applyEnrich
  apply getField_tryInsert_preserved
  exact getField_insertFlat_self _ _ _

theorem applyEnrich_header (s : SimpleHttpSource) (hm : HeaderMap) (qm : QueryMap)
    (path : String) (e : Event) (h : String) (hmem : h ∈ s.headers)
    (hq : h ∉ s.query_parameters) (hp : h ≠ s.path_key) :
    (applyEnrich s hm qm path e).getField h = some (valueOfOpt (hm.get h)) := by
  unfold applyEnrich
  apply getField_tryInsert_preserved
  rw [getField_insertFlat_ne _ _ hp, getField_applyQuery_not_mem _ _ _ _ hq,
    getField_applyHeaders_mem _ _ _ _ hmem]

theorem applyEnrich_query (s : SimpleHttpSource) (hm : HeaderMap) (qm : QueryMap)
    (path : String) (e : Event) (q : String) (hmem : q ∈ s.query_parameters)
    (hp : q ≠ s.path_key) :
    (applyEnrich s hm qm path e).getField q = some (valueOfOpt (qm.get q)) := by
  unfold applyEnrich
  apply getField_tryInsert_preserved
  rw [getField_insertFlat_ne _ _ hp, getField_applyQuery_mem _ _ _ _ hmem]

theorem applyEnrich_header_isSome (s : SimpleHttpSource) (hm : HeaderMap)
    (qm : QueryMap) (path : String) (e : Event) (h : String)
    (hmem : h ∈ s.headers) :
    ((applyEnrich s hm qm path e).getField h).isSome = true := by
  unfold applyEnrich
  apply getField_tryInsert_isSome
  apply getField_insertFlat_isSome
  apply getField_applyQuery_isSome
  simp [getField_applyHeaders_mem _ _ _ _ hmem]

theorem applyEnrich_query_isSome (s : SimpleHttpSource) (hm : HeaderMap)
    (qm : QueryMap) (path : String) (e : Event) (q : String)
    (hmem : q ∈ s.query_parameters) :
    ((applyEnrich s hm qm path e).getField q).isSome = true := by
  unfold applyEnrich
  apply getField_tryInsert_isSome
  apply getField_insertFlat_isSome
  simp [getField_applyQuery_mem _ _ _ _ hmem]

theorem applyEnrich_other_key (s : SimpleHttpSource) (hm : HeaderMap)
    (qm : QueryMap) (path : String) (e : Event) (k : String)
    (hh : k ∉ s.headers) (hq : k ∉ s.query_parameters) (hp : k ≠ s.path_key)
    (hst : k ≠ sourceTypeKey) :
    (applyEnrich s hm qm path e).getField k = e.getField k := by
  unfold applyEnrich
  rw [getField_tryInsert_ne _ _ hst, getField_insertFlat_ne _ _ hp,
    getField_applyQuery_not_mem _ _ _ _ hq,
    getField_applyHeaders_not_mem _ _ _ _ hh]

theorem build_event_of_decode (s : SimpleHttpSource) (hm : HeaderMap)
    (qm : QueryMap) (path : String) (events : List Event) (now : Nat)
    (body : String) (h : decode_body now s.encoding body = .ok events) :
    build_event s now body hm qm path = .ok (enrich s hm qm path events) := by
  unfold build_event
  rw [h]
  rfl

/-- C5: the source-kind key is inserted with insert-if-absent semantics
(a value already carried by a decoded record survives `build_event`,
provided the source-type key is not itself a configured enrichment key),
whereas configured header, query-parameter and path keys are inserted
with unconditional overwrite, replacing any colliding payload field. -/
theorem source_type_insert_if_absent (s : SimpleHttpSource) (hm : HeaderMap)
    (qm : QueryMap) (path : String) (events : List Event) :
    (∀ now body, decode_body now s.encoding body = .ok events →
      build_event s now body hm qm path = .ok (enrich s hm qm path events)) ∧
    (sourceTypeKey ∉ s.headers → sourceTypeKey ∉ s.query_parameters →
      sourceTypeKey ≠ s.path_key →
      ∀ i (h1 : i < events.length)
        (h2 : i < (enrich s hm qm path events).length) (v : Value),
        (events[i]).getField sourceTypeKey = some v →
        ((enrich s hm qm path events)[i]).getField sourceTypeKey = some v) ∧
    (∀ e ∈ enrich s hm qm path events,
      e.getField s.path_key = some (.bytes path)) ∧
    (∀ h ∈ s.headers, h ∉ s.query_parameters → h ≠ s.path_key →
      ∀ e ∈ enrich s hm qm path events,
        e.getField h = some (valueOfOpt (hm.get h))) ∧
    (∀ q ∈ s.query_parameters, q ≠ s.path_key →
      ∀ e ∈ enrich s hm qm path events,
        e.getField q = some (valueOfOpt (qm.get q))) := by
  refine ⟨build_event_of_decode s hm qm path events, ?_, ?_, ?_, ?_⟩
  · intro hh hq hp i h1 h2 v hv
    simp only [enrich_eq_map, List.getElem_map]
    exact applyEnrich_sourceType_preserved s hm qm path _ v hh hq hp hv
  · intro e he
    rw [enrich_eq_map] at he
    obtain ⟨e0, _, rfl⟩ := List.mem_map.mp he
    exact applyEnrich_path s hm qm path e0
  · intro h hmem hq hp e he
    rw [enrich_eq_map] at he
    obtain ⟨e0, _, rfl⟩ := List.mem_map.mp he
    exact applyEnrich_header s hm qm path e0 h hmem hq hp
  · intro q hmem hp e he
    rw [enrich_eq_map] at he
    obtain ⟨e0, _, rfl⟩ := List.mem_map.mp he
    exact applyEnrich_query s hm qm path e0 q hmem hp

/-- C6: a configured header or query-parameter name absent from the
request is still inserted into every record of the batch with an
explicit null value, and configured capture keys are never omitted from
any record. -/
theorem absent_capture_explicit_null (s : SimpleHttpSource) (hm : HeaderMap)
    (qm : QueryMap) (path : String) (events : List Event) :
    (∀ h ∈ s.headers, hm.get h = none → h ∉ s.query_parameters →
      h ≠ s.path_key →
      ∀ e ∈ enrich s hm qm path events, e.getField h = some .null) ∧
    (∀ q ∈ s.query_parameters, qm.get q = none → q ≠ s.path_key →
      ∀ e ∈ enrich s hm qm path events, e.getField q = some .null) ∧
    (∀ h ∈ s.headers, ∀ e ∈ enrich s hm qm path events,
      (e.getField h).isSome = true) ∧
    (∀ q ∈ s.query_parameters, ∀ e ∈ enrich s hm qm path events,
      (e.getField q).isSome = true) := by
  refine ⟨?_, ?_, ?_, ?_⟩
  · intro h hmem habs hq hp e he
    rw [enrich_eq_map] at he
    obtain ⟨e0, _, rfl⟩ := List.mem_map.mp he
    rw [applyEnrich_header s hm qm path e0 h hmem hq hp, habs]
    rfl
  · intro q hmem habs hp e he
    rw [enrich_eq_map] at he
    obtain ⟨e0, _, rfl⟩ := List.mem_map.mp he
    rw [applyEnrich_query s hm qm path e0 q hmem hp, habs]
    rfl
  · intro h hmem e he
    rw [enrich_eq_map] at he
    obtain ⟨e0, _, rfl⟩ := List.mem_map.mp he
    exact applyEnrich_header_isSome s hm qm path e0 h hmem
  · intro q hmem e he
    rw [enrich_eq_map] at he
    obtain ⟨e0, _, rfl⟩ := List.mem_map.mp he
    exact applyEnrich_query_isSome s hm qm path e0 q hmem

/-- C7: enrichment preserves the batch — through `build_event`'s steps
the record count and order are unchanged, and every field of each record
other than the injected header, query-parameter, path and source-kind
keys is unchanged. -/
theorem enrich_preserves_batch (s : SimpleHttpSource) (hm : HeaderMap)
    (qm : QueryMap) (path : String) (events : List Event) :
    (∀ now body, decode_body now s.encoding body = .ok events →
      build_event s now body hm qm path = .ok (enrich s hm qm path events)) ∧
    (enrich s hm qm path events).length = events.length ∧
    (∀ i (h1 : i < events.length)
      (h2 : i < (enrich s hm qm path events).length) (k : String),
      k ∉ s.headers → k ∉ s.query_parameters → k ≠ s.path_key →
      k ≠ sourceTypeKey →
      ((enrich s hm qm path events)[i]).getField k = (events[i]).getField k) := by
  refine ⟨build_event_of_decode s hm qm path events, ?_, ?_⟩
  · rw [enrich_eq_map, List.length_map]
  · intro i h1 h2 k hh hq hp hst
    simp only [enrich_eq_map, List.getElem_map]
    exact applyEnrich_other_key s hm qm path _ k hh hq hp hst

/-- Witness for C5: a decoded record carrying `source_type = "mine"` and
`path = "payload"` keeps its source-type value, while the path key is
overwritten with the request path and the configured header and query
keys hold the captured values. -/
theorem source_type_insert_if_absent_witness :
    (build_event ⟨.json, ["h1"], ["q1"], "path"⟩ 0
        "\x7b\"source_type\":\"mine\",\"path\":\"payload\"\x7d"
        ⟨[("h1", "hv")]⟩ [("q1", "qv")] "/" =
      .ok (enrich ⟨.json, ["h1"], ["q1"], "path"⟩ ⟨[("h1", "hv")]⟩
        [("q1", "qv")] "/"
        [⟨[(timestampKey, Value.timestamp 0), (sourceTypeKey, Value.bytes "mine"),
          ("path", Value.bytes "payload")]⟩])) ∧
    ((Event.mk [(timestampKey, Value.timestamp 0),
        (sourceTypeKey, Value.bytes "mine"), ("path", Value.bytes "/"),
        ("h1", Value.bytes "hv"), ("q1", Value.bytes "qv")]).getField sourceTypeKey
      = some (Value.bytes "mine")) ∧
    ((Event.mk [(timestampKey, Value.timestamp 0),
        (sourceTypeKey, Value.bytes "mine"), ("path", Value.bytes "/"),
        ("h1", Value.bytes "hv"), ("q1", Value.bytes "qv")]).getField "path"
      = some (Value.bytes "/")) ∧
    ((Event.mk [(timestampKey, Value.timestamp 0),
        (sourceTypeKey, Value.bytes "mine"), ("path", Value.bytes "/"),
        ("h1", Value.bytes "hv"), ("q1", Value.bytes "qv")]).getField "h1"
      = some (Value.bytes "hv")) ∧
    ((Event.mk [(timestampKey, Value.timestamp 0),
        (sourceTypeKey, Value.bytes "mine"), ("path", Value.bytes "/"),
        ("h1", Value.bytes "hv"), ("q1", Value.bytes "qv")]).getField "q1"
      = some (Value.bytes "qv")) := by
  obtain ⟨hbe, hst, hpath, hhdr, hqry⟩ :=
    source_type_insert_if_absent ⟨.json, ["h1"], ["q1"], "path"⟩
      ⟨[("h1", "hv")]⟩ [("q1", "qv")] "/"
      [⟨[(timestampKey, Value.timestamp 0), (sourceTypeKey, Value.bytes "mine"),
        ("path", Value.bytes "payload")]⟩]
  refine ⟨hbe 0 "\x7b\"source_type\":\"mine\",\"path\":\"payload\"\x7d" rfl,
    ?_, ?_, ?_, ?_⟩
  · exact hst (by decide) (by decide) (by decide) 0 (by decide) (by decide)
      (Value.bytes "mine") rfl
  · exact hpath _ (List.mem_singleton_self _)
  · exact hhdr "h1" (by decide) (by decide) (by decide) _ (List.mem_singleton_self _)
  · exact hqry "q1" (by decide) (by decide) _ (List.mem_singleton_self _)

/-- Witness for C6: capturing the absent header `hx` and the absent
query parameter `qx` yields both keys present with explicit null in the
enriched record. -/
theorem absent_capture_explicit_null_witness :
    ((Event.mk [("hx", Value.null), ("qx", Value.null),
        ("path", Value.bytes "/"), (sourceTypeKey, Value.bytes "http")]).getField "hx"
      = some Value.null) ∧
    ((Event.mk [("hx", Value.null), ("qx", Value.null),
        ("path", Value.bytes "/"), (sourceTypeKey, Value.bytes "http")]).getField "qx"
      = some Value.null) ∧
    (((Event.mk [("hx", Value.null), ("qx", Value.null),
        ("path", Value.bytes "/"),
        (sourceTypeKey, Value.bytes "http")]).getField "hx").isSome = true) ∧
    (((Event.mk [("hx", Value.null), ("qx", Value.null),
        ("path", Value.bytes "/"),
        (sourceTypeKey, Value.bytes "http")]).getField "qx").isSome = true) := by
  obtain ⟨h1, h2, h3, h4⟩ :=
    absent_capture_explicit_null ⟨.json, ["hx"], ["qx"], "path"⟩ ⟨[]⟩ [] "/" [⟨[]⟩]
  exact ⟨h1 "hx" (by decide) rfl (by decide) (by decide) _ (List.mem_singleton_self _),
    h2 "qx" (by decide) rfl (by decide) _ (List.mem_singleton_self _),
    h3 "hx" (by decide) _ (List.mem_singleton_self _),
    h4 "qx" (by decide) _ (List.mem_singleton_self _)⟩

/-- Witness for C7: enriching the single record decoded from `"hello"`
keeps the batch at one record and leaves its message field unchanged. -/
theorem enrich_preserves_batch_witness :
    (build_event ⟨.text, ["h1"], [], "path"⟩ 0 "hello" ⟨[]⟩ [] "/" =
      .ok (enrich ⟨.text, ["h1"], [], "path"⟩ ⟨[]⟩ [] "/"
        [⟨[(messageKey, Value.bytes "hello"), (timestampKey, Value.timestamp 0)]⟩])) ∧
    ((enrich ⟨.text, ["h1"], [], "path"⟩ ⟨[]⟩ [] "/"
      [⟨[(messageKey, Value.bytes "hello"), (timestampKey, Value.timestamp 0)]⟩]).length
      = 1) ∧
    ((Event.mk [(messageKey, Value.bytes "hello"), (timestampKey, Value.timestamp 0),
        ("h1", Value.null), ("path", Value.bytes "/"),
        (sourceTypeKey, Value.bytes "http")]).getField messageKey =
      (Event.mk [(messageKey, Value.bytes "hello"),
        (timestampKey, Value.timestamp 0)]).getField messageKey) := by
  obtain ⟨hbe, hlen, hidx⟩ :=
    enrich_preserves_batch ⟨.text, ["h1"], [], "path"⟩ ⟨[]⟩ [] "/"
      [⟨[(messageKey, Value.bytes "hello"), (timestampKey, Value.timestamp 0)]⟩]
  exact ⟨hbe 0 "hello" rfl, hlen.trans rfl,
    hidx 0 (by decide) (by decide) messageKey (by decide) (by decide)
      (by decide) (by decide)⟩

/-- C8: in the JSON-family modes an object key containing a literal dot
is flattened as a single leaf field, not expanded into nested maps: the
Json-mode payload `[\x7b"dotted.key":"value"\x7d]` yields exactly one
record whose field literally named `dotted.key` equals `"value"`, with
no `dotted` field. -/
theorem dotted_key_single_leaf (now : Nat) :
    ∃ ev, decode_body now .json "[\x7b\"dotted.key\":\"value\"\x7d]" = .ok [ev] ∧
      ev.getField "dotted.key" = some (.bytes "value") ∧
      ev.getField "dotted" = none ∧
      (ev.getField timestampKey).isSome = true :=
  ⟨⟨[(timestampKey, Value.timestamp now), ("dotted.key", Value.bytes "value")]⟩,
    rfl, rfl, rfl, rfl⟩

/-- C9 counterexample: the listening address is not a required field —
the whole-struct serde default fills it, so the empty configuration
input deserializes successfully with the default address. -/
theorem address_not_required_cex : ¬ addressRequired := by
  intro h
  have habs := h emptyPartialConfig rfl
  simp [emptyPartialConfig] at habs

/-- C9 amended: every configuration field is optional; a missing field
is taken from the `Default` implementation, so the address defaults to
`0.0.0.0:80`, the encoding to text, the capture lists to empty, the
strict-path flag to true, the URL path to `/` and the path key to
`path`. -/
theorem config_schema_defaults :
    deserializeConfig emptyPartialConfig = some defaultSimpleHttpConfig ∧
    defaultSimpleHttpConfig.address = "0.0.0.0:80" ∧
    defaultSimpleHttpConfig.encoding = Encoding.default ∧
    Encoding.default = .text ∧
    defaultSimpleHttpConfig.headers = [] ∧
    defaultSimpleHttpConfig.query_parameters = [] ∧
    defaultSimpleHttpConfig.strict_path = true ∧
    defaultSimpleHttpConfig.url_path = "/" ∧
    defaultSimpleHttpConfig.path_key = "path" ∧
    defaultSimpleHttpConfig.tls = none ∧
    defaultSimpleHttpConfig.auth = none :=
  ⟨rfl, rfl, rfl, rfl, rfl, rfl, rfl, rfl, rfl, rfl, rfl⟩

/-- C10: the decode-time timestamp is inserted before the payload's
entries, so a payload field whose key equals the timestamp key
overwrites it: the record holds the payload-supplied value, which is
never the wall-clock timestamp value. -/
theorem payload_timestamp_overwrites (now : Nat) (v : JsonValue)
    (pre post : List (String × JsonValue))
    (hpost : timestampKey ∉ post.map Prod.fst) :
    (∃ ev, json_parse_object now (.obj (pre ++ (timestampKey, v) :: post)) =
        .ok ev ∧
      ev.getField timestampKey = some (toValue v) ∧
      ∀ t, toValue v ≠ Value.timestamp t) ∧
    decode_body now .json "\x7b\"timestamp\":\"2020\"\x7d" =
      .ok [⟨[(timestampKey, Value.bytes "2020")]⟩] := by
  refine ⟨⟨_, json_parse_object_obj now _, ?_, ?_⟩, rfl⟩
  · rw [List.foldl_append, List.foldl_cons,
      getField_foldl_insertFlat_not_mem post _ timestampKey hpost]
    exact getField_insertFlat_self _ _ _
  · intro t h
    cases v <;> simp [toValue] at h

/-- Witness for C10: the payload object with bindings `a` then
`timestamp = "2020"` decodes to a record whose timestamp field holds the
payload string, not a wall-clock value. -/
theorem payload_timestamp_overwrites_witness :
    ∃ ev, json_parse_object 0
        (.obj [("a", JsonValue.str "x"), (timestampKey, JsonValue.str "2020")]) =
        .ok ev ∧
      ev.getField timestampKey = some (Value.bytes "2020") := by
  obtain ⟨⟨ev, hev, hget, _⟩, _⟩ :=
    payload_timestamp_overwrites 0 (.str "2020") [("a", .str "x")] [] (by decide)
  exact ⟨ev, hev, hget⟩

end HttpSource
